import Mathlib

/-!
Verification of the debt-payoff projection engine and advisory helpers.

Shallow embedding of the repository's debt-projection engine and of the
helper functions in `src/services/geminiService.ts`.  Monetary amounts are
modelled as rationals (`ℚ`); the payoff threshold `0.01` of the spec is the
rational `1/100`.

The projection engine itself (`project`) is not present under `src/` — only
its data types, its prompt-building consumers and the advisory wrappers are —
so the engine is modelled from the specification (section 4.1), as noted in
the doc comments below.  The helpers `constructPromptForDebtStrategyExplanation`,
`safeGenerateContent`, `fetchDebtStrategyExplanation`,
`fetchDebtProjectionSummary` and `calculateNextDueDate` are translated from
`src/services/geminiService.ts`.
-/

namespace ControleFinanceiro

/-- A debt record, following the `Debt` data model of the spec (section 3).
`id` is modelled as a natural number so that "ascending by `id`" is meaningful. -/
structure Debt where
  id : Nat
  name : String
  current_balance : ℚ
  interest_rate_annual : ℚ
  minimum_payment : ℚ
  is_archived : Bool
deriving DecidableEq

/-- The `DebtStrategy` enumeration. -/
inductive DebtStrategy where
  | snowball
  | avalanche
  | minimums
deriving DecidableEq

/-- One entry of a debt's `monthlyPayments` sequence. -/
structure MonthlyPaymentEntry where
  month : Nat
  payment : ℚ
  interestPortion : ℚ
  principalPortion : ℚ
  balance : ℚ
deriving DecidableEq

/-- One `payoffDetails` entry: a debt id together with its payment schedule. -/
structure PayoffDetail where
  debtId : Nat
  monthlyPayments : List MonthlyPaymentEntry
deriving DecidableEq

/-- The `DebtProjection` simulation result (spec section 3). -/
structure DebtProjection where
  strategy : DebtStrategy
  monthsToPayoff : Nat
  totalInterestPaid : ℚ
  totalPrincipalPaid : ℚ
  payoffDetails : List PayoffDetail
deriving DecidableEq

/-- Snowball priority: ascending by `current_balance`, ties broken by
ascending `id` (spec section 4.1 step 1). -/
def snowballLE (a b : Debt) : Prop :=
  a.current_balance < b.current_balance ∨
    (a.current_balance = b.current_balance ∧ a.id ≤ b.id)

/-- Avalanche priority: descending by `interest_rate_annual`, ties broken by
ascending `id` (spec section 4.1 step 1). -/
def avalancheLE (a b : Debt) : Prop :=
  b.interest_rate_annual < a.interest_rate_annual ∨
    (a.interest_rate_annual = b.interest_rate_annual ∧ a.id ≤ b.id)

instance : DecidableRel snowballLE := fun a b => by
  unfold snowballLE; infer_instance

instance : DecidableRel avalancheLE := fun a b => by
  unfold avalancheLE; infer_instance

instance : IsTotal Debt snowballLE where
  total a b := by
    unfold snowballLE
    rcases lt_trichotomy a.current_balance b.current_balance with h | h | h
    · exact Or.inl (Or.inl h)
    · rcases Nat.le_total a.id b.id with hid | hid
      · exact Or.inl (Or.inr ⟨h, hid⟩)
      · exact Or.inr (Or.inr ⟨h.symm, hid⟩)
    · exact Or.inr (Or.inl h)

instance : IsTrans Debt snowballLE where
  trans a b c hab hbc := by
    unfold snowballLE at *
    rcases hab with h1 | ⟨h1, h1id⟩ <;> rcases hbc with h2 | ⟨h2, h2id⟩
    · exact Or.inl (h1.trans h2)
    · exact Or.inl (h2 ▸ h1)
    · exact Or.inl (h1 ▸ h2)
    · exact Or.inr ⟨h1.trans h2, h1id.trans h2id⟩

instance : IsTotal Debt avalancheLE where
  total a b := by
    unfold avalancheLE
    rcases lt_trichotomy b.interest_rate_annual a.interest_rate_annual with h | h | h
    · exact Or.inl (Or.inl h)
    · rcases Nat.le_total a.id b.id with hid | hid
      · exact Or.inl (Or.inr ⟨h.symm, hid⟩)
      · exact Or.inr (Or.inr ⟨h, hid⟩)
    · exact Or.inr (Or.inl h)

instance : IsTrans Debt avalancheLE where
  trans a b c hab hbc := by
    unfold avalancheLE at *
    rcases hab with h1 | ⟨h1, h1id⟩ <;> rcases hbc with h2 | ⟨h2, h2id⟩
    · exact Or.inl (h2.trans h1)
    · exact Or.inl (h2 ▸ h1)
    · exact Or.inl (h1 ▸ h2)
    · exact Or.inr ⟨h1.trans h2, h1id.trans h2id⟩

/-- Modelled from the spec: step 1 of the `project` algorithm (spec
section 4.1), which is missing from `src/`.  Orders the debts into the
priority list demanded by the strategy; for `minimums` the original input
order is preserved. -/
def sortDebts : DebtStrategy → List Debt → List Debt
  | DebtStrategy.snowball, ds => ds.insertionSort snowballLE
  | DebtStrategy.avalanche, ds => ds.insertionSort avalancheLE
  | DebtStrategy.minimums, ds => ds

/-- Per-debt simulation state: the (immutable) debt record, the running
balance, and the recorded monthly payment entries so far. -/
structure SimDebt where
  debt : Debt
  balance : ℚ
  payments : List MonthlyPaymentEntry
deriving DecidableEq

/-- Modelled from the spec: steps 2a–2e of the `project` algorithm for a
single active debt (spec section 4.1), which is missing from `src/`.
Interest accrues on the pre-payment balance; the payment is the (clamped
non-negative) minimum payment plus the extra assigned to this debt, capped at
the accrued balance; the new balance is clamped to `0` when within `0.01` of
zero. -/
def payOne (extra : ℚ) (month : Nat) (s : SimDebt) : SimDebt :=
  let interest := s.balance * (s.debt.interest_rate_annual / 100 / 12)
  let accrued := s.balance + interest
  let payment := min (max s.debt.minimum_payment 0 + extra) accrued
  let rawBalance := accrued - payment
  let newBalance := if rawBalance ≤ 1 / 100 then 0 else rawBalance
  { s with
    balance := newBalance
    payments := s.payments ++
      [⟨month, payment, interest, payment - interest, newBalance⟩] }

/-- Modelled from the spec: one simulated month (spec section 4.1 step 2),
part of the `project` algorithm missing from `src/`.  Debts are visited in
priority order; the first debt that still has balance `> 0.01` receives the
extra-payment pool on top of its minimum, later debts receive only their
minimums; debts at or below the `0.01` threshold are skipped unchanged. -/
def stepMonth (extra : ℚ) (month : Nat) : List SimDebt → List SimDebt
  | [] => []
  | s :: rest =>
    if 1 / 100 < s.balance then
      payOne extra month s :: stepMonth 0 month rest
    else
      s :: stepMonth extra month rest

/-- A simulation state has an active debt when some balance exceeds `0.01`. -/
def anyActive (sims : List SimDebt) : Bool :=
  sims.any fun s => decide (1 / 100 < s.balance)

/-- Modelled from the spec: the month loop of the `project` algorithm (spec
section 4.1 steps 2–4), which is missing from `src/`.  Runs at most `fuel`
further months (the fuel is the safety cap), stopping early as soon as no
debt is active; returns the last month index reached and the final state. -/
def loop (extra : ℚ) : Nat → Nat → List SimDebt → Nat × List SimDebt
  | 0, lastMonth, sims => (lastMonth, sims)
  | Nat.succ fuel, lastMonth, sims =>
    if anyActive sims then
      loop extra fuel (lastMonth + 1) (stepMonth extra (lastMonth + 1) sims)
    else
      (lastMonth, sims)

/-- Sum of a projection field over all recorded entries of one debt. -/
def entrySum (f : MonthlyPaymentEntry → ℚ) (s : SimDebt) : ℚ :=
  (s.payments.map f).sum

/-- Sum of a projection field over all recorded entries of all debts. -/
def totalOf (f : MonthlyPaymentEntry → ℚ) (sims : List SimDebt) : ℚ :=
  (sims.map (entrySum f)).sum

/-- Modelled from the spec: for the `minimums` strategy the extra monthly
payment is ignored entirely (treated as `0`); otherwise it is used as given
(spec section 4.1 step 1). -/
def stratExtra (strategy : DebtStrategy) (extraMonthlyPayment : ℚ) : ℚ :=
  match strategy with
  | DebtStrategy.minimums => 0
  | _ => extraMonthlyPayment

/-- The initial simulation state: the ordered debts with their starting
balances and empty schedules. -/
def initSims (strategy : DebtStrategy) (debts : List Debt) : List SimDebt :=
  (sortDebts strategy debts).map fun d => ⟨d, d.current_balance, []⟩

/-- Modelled from the spec: the `project` contract of spec section 4.1 (the
engine is missing from `src/`), returning the final month index together with
the final per-debt simulation states. -/
def projectState (debts : List Debt) (strategy : DebtStrategy)
    (extraMonthlyPayment : ℚ) (monthlyCapSafety : Nat) : Nat × List SimDebt :=
  loop (stratExtra strategy extraMonthlyPayment) monthlyCapSafety 0
    (initSims strategy debts)

/-- Modelled from the spec: `project(debts, strategy, extraMonthlyPayment,
monthlyCapSafety) -> DebtProjection` (spec section 4.1; the engine is missing
from `src/`).  Aggregates `totalInterestPaid` and `totalPrincipalPaid` across
all recorded monthly entries and sets `monthsToPayoff` to the final month
index reached. -/
def project (debts : List Debt) (strategy : DebtStrategy)
    (extraMonthlyPayment : ℚ) (monthlyCapSafety : Nat) : DebtProjection :=
  { strategy := strategy
    monthsToPayoff :=
      (projectState debts strategy extraMonthlyPayment monthlyCapSafety).1
    totalInterestPaid := totalOf (fun e => e.interestPortion)
      (projectState debts strategy extraMonthlyPayment monthlyCapSafety).2
    totalPrincipalPaid := totalOf (fun e => e.principalPortion)
      (projectState debts strategy extraMonthlyPayment monthlyCapSafety).2
    payoffDetails :=
      (projectState debts strategy extraMonthlyPayment monthlyCapSafety).2.map
        fun s => ⟨s.debt.id, s.payments⟩ }

/-! ### Basic lemmas about the simulation loop -/

theorem loop_nil (extra : ℚ) : ∀ (fuel lastMonth : Nat),
    loop extra fuel lastMonth [] = (lastMonth, [])
  | 0, _ => rfl
  | Nat.succ fuel, lastMonth => by
    simp [loop, anyActive, loop_nil extra fuel]

theorem loop_cons_active (extra : ℚ) (fuel lastMonth : Nat)
    (sims : List SimDebt) (h : anyActive sims = true) :
    loop extra (fuel + 1) lastMonth sims =
      loop extra fuel (lastMonth + 1) (stepMonth extra (lastMonth + 1) sims) := by
  simp [loop, h]

theorem loop_cons_inactive (extra : ℚ) (fuel lastMonth : Nat)
    (sims : List SimDebt) (h : anyActive sims = false) :
    loop extra (fuel + 1) lastMonth sims = (lastMonth, sims) := by
  simp [loop, h]

theorem stepMonth_debts (month : Nat) : ∀ (sims : List SimDebt) (extra : ℚ),
    (stepMonth extra month sims).map (fun s => s.debt) =
      sims.map (fun s => s.debt)
  | [], _ => rfl
  | s :: rest, extra => by
    unfold stepMonth
    split
    · simp only [List.map_cons, payOne, stepMonth_debts month rest]
    · simp only [List.map_cons, stepMonth_debts month rest]

theorem loop_debts (extra : ℚ) : ∀ (fuel lastMonth : Nat) (sims : List SimDebt),
    ((loop extra fuel lastMonth sims).2).map (fun s => s.debt) =
      sims.map (fun s => s.debt)
  | 0, _, _ => rfl
  | Nat.succ fuel, lastMonth, sims => by
    cases h : anyActive sims
    · rw [loop_cons_inactive extra fuel lastMonth sims h]
    · rw [loop_cons_active extra fuel lastMonth sims h,
        loop_debts extra fuel, stepMonth_debts]

theorem loop_fst_ge (extra : ℚ) : ∀ (fuel lastMonth : Nat) (sims : List SimDebt),
    lastMonth ≤ (loop extra fuel lastMonth sims).1
  | 0, _, _ => le_refl _
  | Nat.succ fuel, lastMonth, sims => by
    cases h : anyActive sims
    · rw [loop_cons_inactive extra fuel lastMonth sims h]
    · rw [loop_cons_active extra fuel lastMonth sims h]
      exact le_trans (Nat.le_succ lastMonth)
        (loop_fst_ge extra fuel (lastMonth + 1) _)

theorem loop_fst_le (extra : ℚ) : ∀ (fuel lastMonth : Nat) (sims : List SimDebt),
    (loop extra fuel lastMonth sims).1 ≤ lastMonth + fuel
  | 0, _, _ => le_refl _
  | Nat.succ fuel, lastMonth, sims => by
    cases h : anyActive sims
    · rw [loop_cons_inactive extra fuel lastMonth sims h]
      exact Nat.le_add_right _ _
    · rw [loop_cons_active extra fuel lastMonth sims h]
      have := loop_fst_le extra fuel (lastMonth + 1)
        (stepMonth extra (lastMonth + 1) sims)
      omega

theorem loop_pinned (extra : ℚ) : ∀ (fuel lastMonth : Nat) (sims : List SimDebt),
    anyActive (loop extra fuel lastMonth sims).2 = true →
      (loop extra fuel lastMonth sims).1 = lastMonth + fuel
  | 0, _, _, _ => rfl
  | Nat.succ fuel, lastMonth, sims, hact => by
    cases h : anyActive sims
    · rw [loop_cons_inactive extra fuel lastMonth sims h] at hact
      simp only at hact
      rw [h] at hact
      exact absurd hact (by simp)
    · rw [loop_cons_active extra fuel lastMonth sims h] at hact ⊢
      have := loop_pinned extra fuel (lastMonth + 1)
        (stepMonth extra (lastMonth + 1) sims) hact
      omega

/-! ### Claim theorems: ordering, minimums, cap, empty input -/

/-- Claim C1: `project` orders debts into a priority list by strategy — snowball
ascending by `current_balance` with ties by ascending `id`, avalanche
descending by `interest_rate_annual` with ties by ascending `id`, and the
priority order (witnessed by the order of `payoffDetails`) is a permutation of
the input that, when the ids are distinct, is strictly increasing in the
strategy's lexicographic order, hence a deterministic total order on the
input debts.  For `minimums` the input order is preserved. -/
theorem C1_priority_order (debts : List Debt) (strategy : DebtStrategy)
    (e : ℚ) (cap : Nat) (hids : (debts.map Debt.id).Nodup) :
    (sortDebts strategy debts).Perm debts ∧
    ((project debts strategy e cap).payoffDetails.map PayoffDetail.debtId =
      (sortDebts strategy debts).map Debt.id) ∧
    (strategy = DebtStrategy.snowball →
      (sortDebts strategy debts).Pairwise fun a b =>
        a.current_balance < b.current_balance ∨
          (a.current_balance = b.current_balance ∧ a.id < b.id)) ∧
    (strategy = DebtStrategy.avalanche →
      (sortDebts strategy debts).Pairwise fun a b =>
        b.interest_rate_annual < a.interest_rate_annual ∨
          (a.interest_rate_annual = b.interest_rate_annual ∧ a.id < b.id)) ∧
    (strategy = DebtStrategy.minimums → sortDebts strategy debts = debts) := by
  have hperm : (sortDebts strategy debts).Perm debts := by
    cases strategy <;>
      simp [sortDebts, List.perm_insertionSort]
  have hnodupSorted : ((sortDebts strategy debts).map Debt.id).Nodup :=
    ((hperm.map Debt.id).nodup_iff).2 hids
  have hne : (sortDebts strategy debts).Pairwise fun a b => a.id ≠ b.id :=
    (List.pairwise_map).1 hnodupSorted
  refine ⟨hperm, ?_, ?_, ?_, fun h => by subst h; rfl⟩
  · have hinit : (initSims strategy debts).map (fun s => s.debt) =
        sortDebts strategy debts := by
      unfold initSims
      induction sortDebts strategy debts with
      | nil => rfl
      | cons d ds ih => simp only [List.map_cons, ih]
    have hdebts :
        ((projectState debts strategy e cap).2).map (fun s => s.debt) =
          sortDebts strategy debts := by
      rw [projectState, loop_debts, hinit]
    calc (project debts strategy e cap).payoffDetails.map PayoffDetail.debtId
        = ((projectState debts strategy e cap).2).map (fun s => s.debt.id) := by
          simp only [project, List.map_map]
          rfl
      _ = (((projectState debts strategy e cap).2).map (fun s => s.debt)).map
            Debt.id := by simp only [List.map_map]; rfl
      _ = (sortDebts strategy debts).map Debt.id := by rw [hdebts]
  · rintro rfl
    have hsorted : (sortDebts DebtStrategy.snowball debts).Pairwise snowballLE :=
      List.sorted_insertionSort snowballLE debts
    refine (hsorted.and hne).imp ?_
    rintro a b ⟨hle | ⟨heq, hid⟩, hne⟩
    · exact Or.inl hle
    · exact Or.inr ⟨heq, lt_of_le_of_ne hid hne⟩
  · rintro rfl
    have hsorted : (sortDebts DebtStrategy.avalanche debts).Pairwise avalancheLE :=
      List.sorted_insertionSort avalancheLE debts
    refine (hsorted.and hne).imp ?_
    rintro a b ⟨hle | ⟨heq, hid⟩, hne⟩
    · exact Or.inl hle
    · exact Or.inr ⟨heq, lt_of_le_of_ne hid hne⟩

/-- Claim C3: under the `minimums` strategy the extra monthly payment is ignored
entirely: the whole projection, and in particular `monthsToPayoff`, is the
same as with extra payment `0`. -/
theorem C3_minimums_ignores_extra (debts : List Debt) (e : ℚ) (cap : Nat)
    (_he : 0 ≤ e) :
    project debts DebtStrategy.minimums e cap =
      project debts DebtStrategy.minimums 0 cap ∧
    (project debts DebtStrategy.minimums e cap).monthsToPayoff =
      (project debts DebtStrategy.minimums 0 cap).monthsToPayoff :=
  ⟨rfl, rfl⟩

/-- Claim C5: the simulation always terminates with `monthsToPayoff` at most the
safety cap; if it stops before the cap then no debt is active any more
(convergence), and if debts are still active in the final state then
`monthsToPayoff` is pinned to the safety cap — non-convergence is represented
in the result, never by an error or an unbounded loop. -/
theorem C5_termination_cap (debts : List Debt) (strategy : DebtStrategy)
    (e : ℚ) (cap : Nat) :
    (project debts strategy e cap).monthsToPayoff =
      (projectState debts strategy e cap).1 ∧
    (project debts strategy e cap).monthsToPayoff ≤ cap ∧
    (anyActive (projectState debts strategy e cap).2 = true →
      (project debts strategy e cap).monthsToPayoff = cap) ∧
    ((project debts strategy e cap).monthsToPayoff < cap →
      anyActive (projectState debts strategy e cap).2 = false) := by
  have hle : (projectState debts strategy e cap).1 ≤ cap := by
    have h := loop_fst_le (stratExtra strategy e) cap 0 (initSims strategy debts)
    simpa [projectState] using h
  have hpin : anyActive (projectState debts strategy e cap).2 = true →
      (projectState debts strategy e cap).1 = cap := by
    intro hact
    have h := loop_pinned (stratExtra strategy e) cap 0 (initSims strategy debts)
      hact
    simpa using h
  refine ⟨rfl, hle, hpin, ?_⟩
  intro hlt
  cases hact : anyActive (projectState debts strategy e cap).2
  · rfl
  · have := hpin hact
    have hm : (project debts strategy e cap).monthsToPayoff =
        (projectState debts strategy e cap).1 := rfl
    rw [hm] at hlt
    omega

/-- Claim C7: an empty `debts` input returns a projection with
`monthsToPayoff = 0` and empty `payoffDetails`, with no error. -/
theorem C7_empty_debts (strategy : DebtStrategy) (e : ℚ) (cap : Nat) :
    (project [] strategy e cap).monthsToPayoff = 0 ∧
    (project [] strategy e cap).payoffDetails = [] := by
  cases strategy <;>
    simp [project, projectState, initSims, sortDebts, loop_nil]

/-- Concrete debts used by witnesses: two active debts with distinct ids. -/
def debtA : Debt := ⟨1, "A", 1000, 20, 50, false⟩

/-- Second concrete debt used by witnesses. -/
def debtB : Debt := ⟨2, "B", 500, 10, 30, false⟩

/-- A zero-rate, zero-minimum debt whose simulation never converges. -/
def debtStuck : Debt := ⟨1, "C", 100, 0, 0, false⟩

/-- Witness for C1 at a concrete input with distinct ids. -/
theorem C1_priority_order_witness :
    (sortDebts DebtStrategy.snowball [debtB, debtA]).Perm [debtB, debtA] ∧
    ((project [debtB, debtA] DebtStrategy.snowball 100 12).payoffDetails.map
        PayoffDetail.debtId =
      (sortDebts DebtStrategy.snowball [debtB, debtA]).map Debt.id) ∧
    (DebtStrategy.snowball = DebtStrategy.snowball →
      (sortDebts DebtStrategy.snowball [debtB, debtA]).Pairwise fun a b =>
        a.current_balance < b.current_balance ∨
          (a.current_balance = b.current_balance ∧ a.id < b.id)) ∧
    (DebtStrategy.snowball = DebtStrategy.avalanche →
      (sortDebts DebtStrategy.snowball [debtB, debtA]).Pairwise fun a b =>
        b.interest_rate_annual < a.interest_rate_annual ∨
          (a.interest_rate_annual = b.interest_rate_annual ∧ a.id < b.id)) ∧
    (DebtStrategy.snowball = DebtStrategy.minimums →
      sortDebts DebtStrategy.snowball [debtB, debtA] = [debtB, debtA]) :=
  C1_priority_order [debtB, debtA] DebtStrategy.snowball 100 12 (by decide)

/-- Witness for C3 at a concrete input. -/
theorem C3_minimums_ignores_extra_witness :
    project [debtA, debtB] DebtStrategy.minimums 7 5 =
      project [debtA, debtB] DebtStrategy.minimums 0 5 ∧
    (project [debtA, debtB] DebtStrategy.minimums 7 5).monthsToPayoff =
      (project [debtA, debtB] DebtStrategy.minimums 0 5).monthsToPayoff :=
  C3_minimums_ignores_extra [debtA, debtB] 7 5 (by norm_num)

/-- Witness for C5: a minimum payment of zero at a zero interest rate leaves
the balance unchanged, so with a safety cap of two months the projection stops
and pins `monthsToPayoff` to the cap. -/
theorem C5_termination_cap_witness :
    (project [debtStuck] DebtStrategy.snowball 0 2).monthsToPayoff = 2 :=
  (C5_termination_cap [debtStuck] DebtStrategy.snowball 0 2).2.2.1 (by
    norm_num [projectState, initSims, sortDebts, stratExtra, loop, stepMonth,
      payOne, anyActive, debtStuck])

/-- Claim C2: in every simulated month, every debt still active (balance
`> 0.01`) gets exactly one new recorded entry whose interest portion is the
pre-payment balance times `interest_rate_annual / 100 / 12` and whose
principal portion is the payment minus that interest portion; moreover when
the payment is below the interest the balance grows.  Inactive debts are left
untouched. -/
theorem C2_interest_principal (extra : ℚ) (month : Nat) :
    ∀ sims : List SimDebt,
      List.Forall₂ (fun s t =>
        (1 / 100 < s.balance →
          ∃ p, t.payments = s.payments ++
              [⟨month, p, s.balance * (s.debt.interest_rate_annual / 100 / 12),
                p - s.balance * (s.debt.interest_rate_annual / 100 / 12),
                t.balance⟩] ∧
            (p < s.balance * (s.debt.interest_rate_annual / 100 / 12) →
              s.balance < t.balance)) ∧
        (¬ 1 / 100 < s.balance → t = s))
        sims (stepMonth extra month sims) := by
  intro sims
  induction sims generalizing extra with
  | nil => exact List.Forall₂.nil
  | cons s rest ih =>
    unfold stepMonth
    split
    · rename_i hact
      refine List.Forall₂.cons ⟨fun _ => ?_, fun h => absurd hact h⟩ (ih 0)
      refine ⟨min (max s.debt.minimum_payment 0 + extra)
        (s.balance + s.balance * (s.debt.interest_rate_annual / 100 / 12)),
        rfl, ?_⟩
      intro hlt
      set i := s.balance * (s.debt.interest_rate_annual / 100 / 12) with hi
      set p := min (max s.debt.minimum_payment 0 + extra) (s.balance + i) with hp
      have hraw : s.balance < s.balance + i - p := by linarith
      have hne : ¬ (s.balance + i - p ≤ 1 / 100) := by linarith
      show s.balance < (payOne extra month s).balance
      simp only [payOne, ← hi, ← hp, if_neg hne]
      exact hraw
    · rename_i hact
      exact List.Forall₂.cons ⟨fun h => absurd h hact, fun _ => rfl⟩ (ih extra)

/-! ### Principal-conservation invariant (claim C6) -/

/-- Total principal recorded so far for one debt. -/
def principalSum (s : SimDebt) : ℚ :=
  entrySum (fun e => e.principalPortion) s

/-- Conservation invariant for one simulated debt: the balance is
non-negative, and either principal-so-far plus balance equals the initial
balance exactly, or the debt has been clamped to zero and the recorded
principal is within `0.01` below the initial balance. -/
def ConservesPrincipal (s : SimDebt) : Prop :=
  0 ≤ s.balance ∧
    (principalSum s + s.balance = s.debt.current_balance ∨
      (s.balance = 0 ∧
        s.debt.current_balance - 1 / 100 ≤ principalSum s ∧
        principalSum s ≤ s.debt.current_balance))

theorem payOne_conserves (extra : ℚ) (month : Nat) (s : SimDebt)
    (hact : 1 / 100 < s.balance) (hinv : ConservesPrincipal s) :
    ConservesPrincipal (payOne extra month s) := by
  obtain ⟨hpos, hcase⟩ := hinv
  have hexact : principalSum s + s.balance = s.debt.current_balance := by
    rcases hcase with h | ⟨h0, _, _⟩
    · exact h
    · rw [h0] at hact; norm_num at hact
  set i := s.balance * (s.debt.interest_rate_annual / 100 / 12) with hi
  set p := min (max s.debt.minimum_payment 0 + extra) (s.balance + i) with hp
  have hple : p ≤ s.balance + i := min_le_right _ _
  have hraw : 0 ≤ s.balance + i - p := by linarith
  have hsum : principalSum (payOne extra month s) = principalSum s + (p - i) := by
    simp only [principalSum, entrySum, payOne, ← hi, ← hp, List.map_append,
      List.sum_append, List.map_cons, List.map_nil, List.sum_cons, List.sum_nil]
    ring
  have hdebt : (payOne extra month s).debt = s.debt := rfl
  by_cases hclamp : s.balance + i - p ≤ 1 / 100
  · have hbal : (payOne extra month s).balance = 0 := by
      simp only [payOne, ← hi, ← hp, if_pos hclamp]
    refine ⟨by rw [hbal], Or.inr ⟨hbal, ?_, ?_⟩⟩
    · rw [hsum, hdebt]; linarith
    · rw [hsum, hdebt]; linarith
  · have hbal : (payOne extra month s).balance = s.balance + i - p := by
      simp only [payOne, ← hi, ← hp, if_neg hclamp]
    refine ⟨by rw [hbal]; linarith, Or.inl ?_⟩
    rw [hsum, hbal, hdebt]
    linarith

theorem stepMonth_conserves (month : Nat) : ∀ (sims : List SimDebt) (extra : ℚ),
    (∀ s ∈ sims, ConservesPrincipal s) →
      ∀ t ∈ stepMonth extra month sims, ConservesPrincipal t
  | [], _, _ => by intro t ht; simp [stepMonth] at ht
  | s :: rest, extra, hinv => by
    intro t ht
    unfold stepMonth at ht
    split at ht
    · rename_i hact
      rcases List.mem_cons.1 ht with rfl | ht
      · exact payOne_conserves extra month s hact (hinv s (by simp))
      · exact stepMonth_conserves month rest 0
          (fun u hu => hinv u (by simp [hu])) t ht
    · rcases List.mem_cons.1 ht with rfl | ht
      · exact hinv t (by simp)
      · exact stepMonth_conserves month rest extra
          (fun u hu => hinv u (by simp [hu])) t ht

theorem loop_conserves (extra : ℚ) : ∀ (fuel lastMonth : Nat)
    (sims : List SimDebt), (∀ s ∈ sims, ConservesPrincipal s) →
      ∀ t ∈ (loop extra fuel lastMonth sims).2, ConservesPrincipal t
  | 0, _, _, hinv => hinv
  | Nat.succ fuel, lastMonth, sims, hinv => by
    cases h : anyActive sims
    · rw [loop_cons_inactive extra fuel lastMonth sims h]
      exact hinv
    · rw [loop_cons_active extra fuel lastMonth sims h]
      exact loop_conserves extra fuel (lastMonth + 1) _
        (stepMonth_conserves (lastMonth + 1) sims extra hinv)

/-- The final simulation states carry exactly the (sorted) input debts. -/
theorem projectState_debts (debts : List Debt) (strategy : DebtStrategy)
    (e : ℚ) (cap : Nat) :
    ((projectState debts strategy e cap).2).map (fun s => s.debt) =
      sortDebts strategy debts := by
  have hinit : (initSims strategy debts).map (fun s => s.debt) =
      sortDebts strategy debts := by
    unfold initSims
    induction sortDebts strategy debts with
    | nil => rfl
    | cons d ds ih => simp only [List.map_cons, ih]
  rw [projectState, loop_debts, hinit]

theorem principal_sum_bounds : ∀ l : List SimDebt,
    (∀ t ∈ l, t.debt.current_balance - 1 / 100 ≤ principalSum t ∧
      principalSum t ≤ t.debt.current_balance) →
    ((l.map fun t => t.debt.current_balance).sum -
        (l.length : ℚ) * (1 / 100) ≤ (l.map principalSum).sum ∧
      (l.map principalSum).sum ≤ (l.map fun t => t.debt.current_balance).sum)
  | [], _ => by simp
  | t :: l, h => by
    obtain ⟨h1, h2⟩ := h t (by simp)
    obtain ⟨ih1, ih2⟩ := principal_sum_bounds l fun u hu => h u (by simp [hu])
    simp only [List.map_cons, List.sum_cons, List.length_cons]
    push_cast
    constructor <;> linarith

/-- Claim C6, counterexample: two debts of balances `100` and `50` at rate `0`
with minimum payments `99.99` and `49.99` converge in one month under the
`minimums` strategy, yet `totalPrincipalPaid = 149.98` misses the sum of the
initial balances (`150`) by `0.02 > 0.01`: the per-debt clamp can lose up to
`0.01` for each debt, so the total is not within a single `0.01` tolerance. -/
theorem C6_total_principal_counterexample :
    anyActive (projectState
      [⟨1, "A", 100, 0, 9999 / 100, false⟩, ⟨2, "B", 50, 0, 4999 / 100, false⟩]
      DebtStrategy.minimums 0 2).2 = false ∧
    ¬ (|(project
      [⟨1, "A", 100, 0, 9999 / 100, false⟩, ⟨2, "B", 50, 0, 4999 / 100, false⟩]
      DebtStrategy.minimums 0 2).totalPrincipalPaid - (100 + 50)| ≤ 1 / 100) := by
  constructor <;>
    norm_num [project, projectState, initSims, sortDebts, stratExtra, loop,
      stepMonth, payOne, anyActive, totalOf, entrySum, abs_le]

/-- Claim C6, amended: on every debt list satisfying the preconditions on which
the simulation converges within the safety cap, `totalPrincipalPaid` never
exceeds the sum of the initial `current_balance` and falls short of it by at
most `0.01` per included debt (the `0.01` zero-clamp can discard up to `0.01`
of principal once for each debt), rather than `0.01` in total. -/
theorem C6_total_principal_amended (debts : List Debt)
    (strategy : DebtStrategy) (e : ℚ) (cap : Nat)
    (hbal : ∀ d ∈ debts, 1 / 100 < d.current_balance)
    (hconv : anyActive (projectState debts strategy e cap).2 = false) :
    (debts.map fun d => d.current_balance).sum -
        (debts.length : ℚ) * (1 / 100) ≤
      (project debts strategy e cap).totalPrincipalPaid ∧
    (project debts strategy e cap).totalPrincipalPaid ≤
      (debts.map fun d => d.current_balance).sum := by
  have hperm : (sortDebts strategy debts).Perm debts := by
    cases strategy <;> simp [sortDebts, List.perm_insertionSort]
  -- the invariant holds at the end of the simulation
  have hfinal : ∀ t ∈ (projectState debts strategy e cap).2,
      ConservesPrincipal t := by
    apply loop_conserves
    intro s hs
    simp only [initSims, List.mem_map] at hs
    obtain ⟨d, hd, rfl⟩ := hs
    have hd' : d ∈ debts := hperm.mem_iff.1 hd
    have hdpos := hbal d hd'
    refine ⟨le_of_lt (lt_trans (by norm_num) hdpos), Or.inl ?_⟩
    simp [principalSum, entrySum]
  -- convergence: every final balance is at most 0.01
  have hinactive : ∀ t ∈ (projectState debts strategy e cap).2,
      ¬ (1 / 100 < t.balance) := by
    intro t ht
    have := List.any_eq_false.1 hconv t ht
    simpa using this
  -- pointwise bounds on each debt's recorded principal
  have hpoint : ∀ t ∈ (projectState debts strategy e cap).2,
      t.debt.current_balance - 1 / 100 ≤ principalSum t ∧
        principalSum t ≤ t.debt.current_balance := by
    intro t ht
    obtain ⟨hpos, hcase⟩ := hfinal t ht
    have hsmall : t.balance ≤ 1 / 100 := le_of_not_lt (hinactive t ht)
    rcases hcase with h | ⟨h0, hlo, hhi⟩
    · constructor <;> linarith
    · exact ⟨hlo, hhi⟩
  -- turn the pointwise bounds into bounds on the total
  have htotal : (project debts strategy e cap).totalPrincipalPaid =
      ((projectState debts strategy e cap).2.map principalSum).sum := rfl
  have hinitsum :
      ((projectState debts strategy e cap).2.map
        fun t => t.debt.current_balance).sum =
      (debts.map fun d => d.current_balance).sum := by
    have h1 : ((projectState debts strategy e cap).2.map
        fun t => t.debt.current_balance).sum =
        ((((projectState debts strategy e cap).2.map fun s => s.debt).map
          fun d => d.current_balance)).sum := by
      rw [List.map_map]
      rfl
    rw [h1, projectState_debts]
    exact ((hperm.map fun d => d.current_balance).sum_eq)
  have hlen : (projectState debts strategy e cap).2.length = debts.length := by
    have h1 := congrArg List.length (projectState_debts debts strategy e cap)
    rw [List.length_map] at h1
    rw [h1, hperm.length_eq]
  have hbounds := principal_sum_bounds (projectState debts strategy e cap).2
    hpoint
  rw [hinitsum, hlen] at hbounds
  rw [htotal]
  exact hbounds

/-! ### Monotonicity in the extra payment (claim C4) -/

/-- Total interest recorded so far for one debt. -/
def interestSum (s : SimDebt) : ℚ :=
  entrySum (fun e => e.interestPortion) s

/-- Simulation relation between a run with a smaller extra payment (`s`, the
first component) and a run with a larger extra payment (`t`): same debt,
the larger-extra balance is trapped between `0` and the smaller-extra balance,
is exactly `0` once at or below the `0.01` threshold, and has accrued no more
interest; the interest rate is non-negative. -/
def ExtraRel (s t : SimDebt) : Prop :=
  t.debt = s.debt ∧
  0 ≤ t.balance ∧
  t.balance ≤ s.balance ∧
  (t.balance ≤ 1 / 100 → t.balance = 0) ∧
  interestSum t ≤ interestSum s ∧
  0 ≤ s.debt.interest_rate_annual

theorem payOne_rel (x1 x2 : ℚ) (month : Nat) (s t : SimDebt)
    (hs : 1 / 100 < s.balance) (ht : 1 / 100 < t.balance)
    (hrel : ExtraRel s t) (hx : x1 ≤ x2) :
    ExtraRel (payOne x1 month s) (payOne x2 month t) := by
  obtain ⟨hdebt, htpos, htle, _, hint, hrate⟩ := hrel
  cases s with
  | mk sd sb sp =>
    cases t with
    | mk td tb tp =>
      simp only at hdebt
      subst hdebt
      simp only at hs ht htpos htle hrate ⊢
      have hc : 0 ≤ td.interest_rate_annual / 100 / 12 := by positivity
      have hit : tb * (td.interest_rate_annual / 100 / 12) ≤
          sb * (td.interest_rate_annual / 100 / 12) :=
        mul_le_mul_of_nonneg_right htle hc
      have hitpos : 0 ≤ tb * (td.interest_rate_annual / 100 / 12) :=
        mul_nonneg htpos hc
      set c := td.interest_rate_annual / 100 / 12 with hcdef
      set m := max td.minimum_payment 0 with hm
      set ps := min (m + x1) (sb + sb * c) with hps
      set pt := min (m + x2) (tb + tb * c) with hpt
      have hsraw : 0 ≤ sb + sb * c - ps := by
        have := min_le_right (m + x1) (sb + sb * c)
        linarith [hps ▸ this]
      have htraw : 0 ≤ tb + tb * c - pt := by
        have := min_le_right (m + x2) (tb + tb * c)
        linarith [hpt ▸ this]
      have hrawle : tb + tb * c - pt ≤ sb + sb * c - ps := by
        rcases min_cases (m + x1) (sb + sb * c) with ⟨h1, h1le⟩ | ⟨h1, h1le⟩ <;>
          rcases min_cases (m + x2) (tb + tb * c) with ⟨h2, h2le⟩ | ⟨h2, h2le⟩ <;>
          rw [← hps] at h1 <;> rw [← hpt] at h2 <;> linarith
      constructor
      · rfl
      refine ⟨?_, ?_, ?_, ?_, hrate⟩
      · show 0 ≤ (payOne x2 month ⟨td, tb, tp⟩).balance
        simp only [payOne, ← hcdef, ← hm, ← hpt]
        split
        · exact le_refl 0
        · exact htraw
      · show (payOne x2 month ⟨td, tb, tp⟩).balance ≤
          (payOne x1 month ⟨td, sb, sp⟩).balance
        simp only [payOne, ← hcdef, ← hm, ← hps, ← hpt]
        split
        · split
          · exact le_refl 0
          · rename_i hno
            linarith
        · rename_i htno
          split
          · rename_i hyes
            linarith
          · exact hrawle
      · show (payOne x2 month ⟨td, tb, tp⟩).balance ≤ 1 / 100 →
          (payOne x2 month ⟨td, tb, tp⟩).balance = 0
        simp only [payOne, ← hcdef, ← hm, ← hpt]
        split
        · intro _; rfl
        · rename_i hno
          intro hle
          linarith
      · show interestSum (payOne x2 month ⟨td, tb, tp⟩) ≤
          interestSum (payOne x1 month ⟨td, sb, sp⟩)
        simp only [interestSum, entrySum, payOne, ← hcdef, ← hm, ← hps, ← hpt,
          List.map_append, List.sum_append, List.map_cons, List.map_nil,
          List.sum_cons, List.sum_nil]
        simp only [interestSum, entrySum] at hint
        linarith

theorem stepMonth_rel (month : Nat) {sims1 sims2 : List SimDebt}
    (hf : List.Forall₂ ExtraRel sims1 sims2) : ∀ x1 x2 : ℚ, 0 ≤ x1 → x1 ≤ x2 →
    List.Forall₂ ExtraRel (stepMonth x1 month sims1)
      (stepMonth x2 month sims2) := by
  induction hf with
  | nil => intro x1 x2 _ _; exact List.Forall₂.nil
  | @cons s t l1 l2 hst htail ih =>
    intro x1 x2 hx1 hx12
    by_cases ht : 1 / 100 < t.balance
    · have hs : 1 / 100 < s.balance := lt_of_lt_of_le ht hst.2.2.1
      show List.Forall₂ ExtraRel
        (stepMonth x1 month (s :: l1)) (stepMonth x2 month (t :: l2))
      unfold stepMonth
      rw [if_pos hs, if_pos ht]
      exact List.Forall₂.cons (payOne_rel x1 x2 month s t hs ht hst hx12)
        (ih 0 0 (le_refl 0) (le_refl 0))
    · have htz : t.balance = 0 := hst.2.2.2.1 (le_of_not_lt ht)
      show List.Forall₂ ExtraRel
        (stepMonth x1 month (s :: l1)) (stepMonth x2 month (t :: l2))
      unfold stepMonth
      rw [if_neg ht]
      by_cases hs : 1 / 100 < s.balance
      · rw [if_pos hs]
        refine List.Forall₂.cons ?_ (ih 0 x2 (le_refl 0) (le_trans hx1 hx12))
        obtain ⟨hdebt, htpos, htle, hzero, hint, hrate⟩ := hst
        have hc : 0 ≤ s.debt.interest_rate_annual / 100 / 12 := by positivity
        have hsiv : 0 ≤ s.balance * (s.debt.interest_rate_annual / 100 / 12) :=
          mul_nonneg (by linarith [hs]) hc
        refine ⟨hdebt, htpos, ?_, hzero, ?_, hrate⟩
        · rw [htz]
          show (0 : ℚ) ≤ (payOne x1 month s).balance
          simp only [payOne]
          split
          · exact le_refl 0
          · rename_i hno
            have := min_le_right (max s.debt.minimum_payment 0 + x1)
              (s.balance + s.balance * (s.debt.interest_rate_annual / 100 / 12))
            linarith
        · show interestSum t ≤ interestSum (payOne x1 month s)
          simp only [interestSum, entrySum, payOne, List.map_append,
            List.sum_append, List.map_cons, List.map_nil, List.sum_cons,
            List.sum_nil]
          simp only [interestSum, entrySum] at hint
          linarith
      · rw [if_neg hs]
        exact List.Forall₂.cons hst (ih x1 x2 hx1 hx12)

theorem rel_anyActive {sims1 sims2 : List SimDebt}
    (hf : List.Forall₂ ExtraRel sims1 sims2)
    (h2 : anyActive sims2 = true) : anyActive sims1 = true := by
  induction hf with
  | nil =>
    simp only [anyActive, List.any_nil] at h2
    exact absurd h2 (by simp)
  | @cons s t l1 l2 hst htail ih =>
    simp only [anyActive, List.any_cons, Bool.or_eq_true] at h2 ⊢
    rcases h2 with h2 | h2
    · left
      have := of_decide_eq_true h2
      exact decide_eq_true (lt_of_lt_of_le this hst.2.2.1)
    · right
      exact ih h2

theorem rel_interest_le {sims1 sims2 : List SimDebt}
    (hf : List.Forall₂ ExtraRel sims1 sims2) :
    (sims2.map interestSum).sum ≤ (sims1.map interestSum).sum := by
  induction hf with
  | nil => exact le_refl 0
  | @cons s t l1 l2 hst htail ih =>
    simp only [List.map_cons, List.sum_cons]
    exact add_le_add hst.2.2.2.2.1 ih

/-- Balances non-negative and rates non-negative, the single-run invariant
needed for the interest total to be monotone along the loop. -/
def NonNegState (sims : List SimDebt) : Prop :=
  ∀ s ∈ sims, 0 ≤ s.balance ∧ 0 ≤ s.debt.interest_rate_annual

theorem rel_nonneg_fst {sims1 sims2 : List SimDebt}
    (hf : List.Forall₂ ExtraRel sims1 sims2) : NonNegState sims1 := by
  induction hf with
  | nil => intro s hs; simp at hs
  | @cons s t l1 l2 hst htail ih =>
    intro u hu
    rcases List.mem_cons.1 hu with rfl | hu
    · exact ⟨le_trans hst.2.1 hst.2.2.1, hst.2.2.2.2.2⟩
    · exact ih u hu

theorem payOne_balance_nonneg (extra : ℚ) (month : Nat) (s : SimDebt) :
    0 ≤ (payOne extra month s).balance := by
  simp only [payOne]
  split
  · exact le_refl 0
  · rename_i hno
    have := min_le_right (max s.debt.minimum_payment 0 + extra)
      (s.balance + s.balance * (s.debt.interest_rate_annual / 100 / 12))
    linarith

theorem stepMonth_nonneg (month : Nat) : ∀ (sims : List SimDebt) (extra : ℚ),
    NonNegState sims → NonNegState (stepMonth extra month sims)
  | [], _, _ => by intro t ht; simp [stepMonth] at ht
  | s :: rest, extra, hinv => by
    intro t ht
    unfold stepMonth at ht
    split at ht
    · rcases List.mem_cons.1 ht with rfl | ht
      · exact ⟨payOne_balance_nonneg extra month s, (hinv s (by simp)).2⟩
      · exact stepMonth_nonneg month rest 0
          (fun u hu => hinv u (by simp [hu])) t ht
    · rcases List.mem_cons.1 ht with rfl | ht
      · exact hinv t (by simp)
      · exact stepMonth_nonneg month rest extra
          (fun u hu => hinv u (by simp [hu])) t ht

theorem stepMonth_interest_mono (month : Nat) :
    ∀ (sims : List SimDebt) (extra : ℚ), NonNegState sims →
      (sims.map interestSum).sum ≤
        ((stepMonth extra month sims).map interestSum).sum
  | [], _, _ => le_refl 0
  | s :: rest, extra, hinv => by
    have hrest : NonNegState rest := fun u hu => hinv u (by simp [hu])
    unfold stepMonth
    split
    · rename_i hact
      simp only [List.map_cons, List.sum_cons]
      refine add_le_add ?_ (stepMonth_interest_mono month rest 0 hrest)
      obtain ⟨hb, hr⟩ := hinv s (by simp)
      have hc : 0 ≤ s.debt.interest_rate_annual / 100 / 12 := by positivity
      have : 0 ≤ s.balance * (s.debt.interest_rate_annual / 100 / 12) :=
        mul_nonneg hb hc
      simp only [interestSum, entrySum, payOne, List.map_append,
        List.sum_append, List.map_cons, List.map_nil, List.sum_cons,
        List.sum_nil]
      linarith
    · simp only [List.map_cons, List.sum_cons]
      exact add_le_add (le_refl _)
        (stepMonth_interest_mono month rest extra hrest)

theorem loop_interest_mono (extra : ℚ) : ∀ (fuel lastMonth : Nat)
    (sims : List SimDebt), NonNegState sims →
      (sims.map interestSum).sum ≤
        (((loop extra fuel lastMonth sims).2).map interestSum).sum
  | 0, _, _, _ => le_refl _
  | Nat.succ fuel, lastMonth, sims, hinv => by
    cases h : anyActive sims
    · rw [loop_cons_inactive extra fuel lastMonth sims h]
    · rw [loop_cons_active extra fuel lastMonth sims h]
      exact le_trans (stepMonth_interest_mono (lastMonth + 1) sims extra hinv)
        (loop_interest_mono extra fuel (lastMonth + 1) _
          (stepMonth_nonneg (lastMonth + 1) sims extra hinv))

theorem loop_rel : ∀ (fuel lastMonth : Nat) {sims1 sims2 : List SimDebt}
    (x1 x2 : ℚ), List.Forall₂ ExtraRel sims1 sims2 → 0 ≤ x1 → x1 ≤ x2 →
    (loop x2 fuel lastMonth sims2).1 ≤ (loop x1 fuel lastMonth sims1).1 ∧
    (((loop x2 fuel lastMonth sims2).2).map interestSum).sum ≤
      (((loop x1 fuel lastMonth sims1).2).map interestSum).sum
  | 0, lastMonth, sims1, sims2, x1, x2, hf, hx1, hx12 =>
    ⟨le_refl _, rel_interest_le hf⟩
  | Nat.succ fuel, lastMonth, sims1, sims2, x1, x2, hf, hx1, hx12 => by
    cases h2 : anyActive sims2
    · rw [loop_cons_inactive x2 fuel lastMonth sims2 h2]
      cases h1 : anyActive sims1
      · rw [loop_cons_inactive x1 fuel lastMonth sims1 h1]
        exact ⟨le_refl _, rel_interest_le hf⟩
      · constructor
        · exact loop_fst_ge x1 (fuel + 1) lastMonth sims1
        · refine le_trans (rel_interest_le hf) ?_
          rw [loop_cons_active x1 fuel lastMonth sims1 h1]
          exact le_trans
            (stepMonth_interest_mono (lastMonth + 1) sims1 x1
              (rel_nonneg_fst hf))
            (loop_interest_mono x1 fuel (lastMonth + 1) _
              (stepMonth_nonneg (lastMonth + 1) sims1 x1 (rel_nonneg_fst hf)))
    · have h1 : anyActive sims1 = true := rel_anyActive hf h2
      rw [loop_cons_active x2 fuel lastMonth sims2 h2,
        loop_cons_active x1 fuel lastMonth sims1 h1]
      exact loop_rel fuel (lastMonth + 1) x1 x2
        (stepMonth_rel (lastMonth + 1) hf x1 x2 hx1 hx12) hx1 hx12

theorem rel_refl_of_precond : ∀ l : List Debt,
    (∀ d ∈ l, 1 / 100 < d.current_balance ∧ 0 ≤ d.interest_rate_annual) →
    List.Forall₂ ExtraRel (l.map fun d => ⟨d, d.current_balance, []⟩)
      (l.map fun d => ⟨d, d.current_balance, []⟩)
  | [], _ => List.Forall₂.nil
  | d :: l, h => by
    obtain ⟨hb, hr⟩ := h d (by simp)
    refine List.Forall₂.cons ⟨rfl, ?_, le_refl _, ?_, le_refl _, hr⟩
      (rel_refl_of_precond l fun u hu => h u (by simp [hu]))
    · exact le_of_lt (lt_trans (by norm_num) hb)
    · intro hle
      exact absurd (lt_of_lt_of_le hb hle) (lt_irrefl _)

/-- Claim C4: with the debt list, strategy and safety cap fixed and the
preconditions satisfied (positive balances, non-negative rates), increasing
the extra monthly payment never increases `monthsToPayoff` nor
`totalInterestPaid`. -/
theorem C4_extra_payment_monotone (debts : List Debt)
    (strategy : DebtStrategy) (e1 e2 : ℚ) (cap : Nat)
    (hd : ∀ d ∈ debts, 1 / 100 < d.current_balance ∧
      0 ≤ d.interest_rate_annual)
    (he1 : 0 ≤ e1) (he12 : e1 ≤ e2) :
    (project debts strategy e2 cap).monthsToPayoff ≤
      (project debts strategy e1 cap).monthsToPayoff ∧
    (project debts strategy e2 cap).totalInterestPaid ≤
      (project debts strategy e1 cap).totalInterestPaid := by
  have hperm : (sortDebts strategy debts).Perm debts := by
    cases strategy <;> simp [sortDebts, List.perm_insertionSort]
  have hinit : List.Forall₂ ExtraRel (initSims strategy debts)
      (initSims strategy debts) :=
    rel_refl_of_precond (sortDebts strategy debts)
      fun d hdm => hd d (hperm.mem_iff.1 hdm)
  have hx1 : 0 ≤ stratExtra strategy e1 := by
    cases strategy <;> simp [stratExtra] <;> exact he1
  have hx12 : stratExtra strategy e1 ≤ stratExtra strategy e2 := by
    cases strategy <;> simp [stratExtra] <;> exact he12
  have h := loop_rel cap 0 (stratExtra strategy e1) (stratExtra strategy e2)
    hinit hx1 hx12
  exact h

/-- Witness for C4 at a concrete input. -/
theorem C4_extra_payment_monotone_witness :
    (project [debtA] DebtStrategy.snowball 10 2).monthsToPayoff ≤
      (project [debtA] DebtStrategy.snowball 0 2).monthsToPayoff ∧
    (project [debtA] DebtStrategy.snowball 10 2).totalInterestPaid ≤
      (project [debtA] DebtStrategy.snowball 0 2).totalInterestPaid :=
  C4_extra_payment_monotone [debtA] DebtStrategy.snowball 0 10 2
    (by
      intro d hdm
      rcases List.mem_cons.1 hdm with rfl | hdm
      · constructor <;> norm_num [debtA]
      · simp at hdm)
    (by norm_num) (by norm_num)

/-- A debt that is fully paid off in its first month. -/
def debtQuick : Debt := ⟨1, "D", 100, 0, 100, false⟩

/-- Witness for C6 (amended) at a concrete converging input. -/
theorem C6_total_principal_amended_witness :
    (([debtQuick].map fun d => d.current_balance).sum -
        (([debtQuick].length : ℚ)) * (1 / 100) ≤
      (project [debtQuick] DebtStrategy.minimums 0 2).totalPrincipalPaid) ∧
    (project [debtQuick] DebtStrategy.minimums 0 2).totalPrincipalPaid ≤
      ([debtQuick].map fun d => d.current_balance).sum :=
  C6_total_principal_amended [debtQuick] DebtStrategy.minimums 0 2
    (by
      intro d hdm
      rcases List.mem_cons.1 hdm with rfl | hdm
      · norm_num [debtQuick]
      · simp at hdm)
    (by norm_num [projectState, initSims, sortDebts, stratExtra, loop,
        stepMonth, payOne, anyActive, debtQuick])

/-!
Embeddings of the advisory helpers of `src/services/geminiService.ts`.
The strategy argument of `constructPromptForDebtStrategyExplanation` is
modelled as a raw string, because the function's `default` switch case is
reachable exactly when a caller passes a value outside the `DebtStrategy`
enumeration.
-/

/-- The prompt template of `constructPromptForDebtStrategyExplanation`
(geminiService.ts lines 421–425), with the strategy name and core concept
interpolated. -/
def strategyExplanationPrompt (strategyName coreConcept : String) : String :=
  "Você é um educador financeiro. Explique a estratégia de quitação de dívidas \"" ++
    strategyName ++ "\" em termos simples.\n" ++
    "O conceito principal desta estratégia é que " ++ coreConcept ++ ".\n" ++
    "Forneça uma breve explicação (2-3 frases) sobre como funciona, suas principais vantagens e desvantagens.\n" ++
    "Não use markdown. Responda apenas com a explicação.\n" ++
    "Explicação:"

/-- Translation of `constructPromptForDebtStrategyExplanation`
(geminiService.ts lines 401–426): a `switch` on the strategy whose `default`
branch returns the fixed string "Estratégia desconhecida." instead of a
prompt; nothing is thrown. -/
def constructPromptForDebtStrategyExplanation (strategy : String) : String :=
  if strategy = "snowball" then
    strategyExplanationPrompt "Bola de Neve (Snowball)"
      "prioriza quitar as dívidas com os menores saldos primeiro, independentemente das taxas de juros, para obter vitórias rápidas e motivação."
  else if strategy = "avalanche" then
    strategyExplanationPrompt "Avalanche"
      "prioriza quitar as dívidas com as maiores taxas de juros primeiro, o que geralmente economiza mais dinheiro em juros a longo prazo."
  else if strategy = "minimums" then
    strategyExplanationPrompt "Pagamentos Mínimos"
      "consiste em pagar apenas o valor mínimo exigido em todas as dívidas. Geralmente é a forma mais lenta e cara de quitar dívidas devido ao acúmulo de juros."
  else "Estratégia desconhecida."

/-- Claim C8, counterexample: two distinct unrecognized strategy values
produce the identical fixed output "Estratégia desconhecida.", so the result
cannot identify which unrecognized strategy was passed, and no hard failure
occurs — the function returns this string like any other advisory output. -/
theorem C8_invalid_strategy_counterexample :
    constructPromptForDebtStrategyExplanation "foo" =
      constructPromptForDebtStrategyExplanation "bar" ∧
    "foo" ≠ "bar" ∧
    constructPromptForDebtStrategyExplanation "foo" =
      "Estratégia desconhecida." := by
  refine ⟨?_, by decide, ?_⟩ <;> rfl

/-- Claim C8, amended: for every strategy value outside the recognized
enumeration, `constructPromptForDebtStrategyExplanation` returns the fixed
text "Estratégia desconhecida." instead of an explanation prompt; it never
throws (it is a total function into strings), so even this case degrades into
advisory output rather than producing a hard failure. -/
theorem C8_invalid_strategy_amended (strategy : String)
    (h1 : strategy ≠ "snowball") (h2 : strategy ≠ "avalanche")
    (h3 : strategy ≠ "minimums") :
    constructPromptForDebtStrategyExplanation strategy =
      "Estratégia desconhecida." := by
  unfold constructPromptForDebtStrategyExplanation
  rw [if_neg h1, if_neg h2, if_neg h3]

/-- Witness for C8 (amended) at a concrete unrecognized strategy. -/
theorem C8_invalid_strategy_amended_witness :
    constructPromptForDebtStrategyExplanation "foo" =
      "Estratégia desconhecida." :=
  C8_invalid_strategy_amended "foo" (by decide) (by decide) (by decide)

/-- The outcome of one call to the language-model client, as seen by
`safeGenerateContent`: the client may be unavailable (`!ai`, missing API key
or missing `ai.models`), the request may throw, or it returns a response
whose `text` field may be absent. -/
inductive LMOutcome where
  | unavailable
  | failure (message : String)
  | success (text : Option String)

/-- JavaScript `String.prototype.toUpperCase`, modelled as character-wise
uppercasing of the string's character list. -/
def toUpperCase (s : String) : String :=
  ⟨s.data.map Char.toUpper⟩

/-- JavaScript `String.prototype.trim`, modelled on the character list:
drop leading and trailing whitespace. -/
def jsTrim (s : String) : String :=
  ⟨((s.data.dropWhile Char.isWhitespace).reverse.dropWhile
      Char.isWhitespace).reverse⟩

/-- Translation of `safeGenerateContent` (geminiService.ts lines 655–678):
returns `null` when the client is unavailable, when the request throws, when
the response text is absent or trims to the empty string, and when the
trimmed text uppercases to "NORMAL"; otherwise the trimmed text. -/
def safeGenerateContent (outcome : LMOutcome) : Option String :=
  match outcome with
  | LMOutcome.unavailable => none
  | LMOutcome.failure _ => none
  | LMOutcome.success none => none
  | LMOutcome.success (some raw) =>
    let text := jsTrim raw
    if text ≠ "" ∧ toUpperCase text ≠ "NORMAL" then some text else none

/-- The `Omit<AIInsight, ...>` object returned by the debt advisory
fetchers. -/
structure AIInsightDraft where
  timestamp : String
  type : String
  content : String
  related_debt_strategy : Option String
  is_read : Bool
deriving DecidableEq

/-- Translation of `fetchDebtStrategyExplanation` (geminiService.ts lines
1110–1123).  The impure timestamp `new Date().toISOString()` is passed in as
`now`; the prompt built from the strategy is consumed by the opaque client,
whose outcome is the `outcome` argument. -/
def fetchDebtStrategyExplanation (now strategy : String)
    (outcome : LMOutcome) : Option AIInsightDraft :=
  match safeGenerateContent outcome with
  | some content =>
    if content = "" then none
    else some ⟨now, "debt_strategy_explanation", content, some strategy, false⟩
  | none => none

/-- Translation of `fetchDebtProjectionSummary` (geminiService.ts lines
1125–1138); `projectionStrategy` is `projection.strategy`. -/
def fetchDebtProjectionSummary (now projectionStrategy : String)
    (outcome : LMOutcome) : Option AIInsightDraft :=
  match safeGenerateContent outcome with
  | some content =>
    if content = "" then none
    else some ⟨now, "debt_projection_summary", content,
      some projectionStrategy, false⟩
  | none => none

/-- Claim C9: the advisory fetchers `fetchDebtStrategyExplanation` and
`fetchDebtProjectionSummary` return `null` (never throw) whenever the
language-model client is unavailable, errors, or returns absent, empty or
filtered ("NORMAL") text, so downstream output does not depend on the
client's availability. -/
theorem C9_advisory_null (now strategy e t1 t2 : String)
    (h1 : jsTrim t1 = "") (h2 : toUpperCase (jsTrim t2) = "NORMAL") :
    fetchDebtStrategyExplanation now strategy LMOutcome.unavailable = none ∧
    fetchDebtStrategyExplanation now strategy (LMOutcome.failure e) = none ∧
    fetchDebtStrategyExplanation now strategy
      (LMOutcome.success none) = none ∧
    fetchDebtStrategyExplanation now strategy
      (LMOutcome.success (some t1)) = none ∧
    fetchDebtStrategyExplanation now strategy
      (LMOutcome.success (some t2)) = none ∧
    fetchDebtProjectionSummary now strategy LMOutcome.unavailable = none ∧
    fetchDebtProjectionSummary now strategy (LMOutcome.failure e) = none ∧
    fetchDebtProjectionSummary now strategy (LMOutcome.success none) = none ∧
    fetchDebtProjectionSummary now strategy
      (LMOutcome.success (some t1)) = none ∧
    fetchDebtProjectionSummary now strategy
      (LMOutcome.success (some t2)) = none := by
  have hsafe1 : safeGenerateContent (LMOutcome.success (some t1)) = none := by
    simp [safeGenerateContent, h1]
  have hsafe2 : safeGenerateContent (LMOutcome.success (some t2)) = none := by
    simp [safeGenerateContent, h2]
  refine ⟨rfl, rfl, rfl, ?_, ?_, rfl, rfl, rfl, ?_, ?_⟩ <;>
    simp [fetchDebtStrategyExplanation, fetchDebtProjectionSummary,
      hsafe1, hsafe2]

/-- Witness for C9 at concrete inputs: empty and "NORMAL" responses. -/
theorem C9_advisory_null_witness :
    fetchDebtStrategyExplanation "t0" "snowball"
      (LMOutcome.success (some "")) = none ∧
    fetchDebtProjectionSummary "t0" "snowball"
      (LMOutcome.success (some "NORMAL")) = none :=
  ⟨(C9_advisory_null "t0" "snowball" "err" "" "NORMAL" (by decide) (by decide)).2.2.2.1,
    (C9_advisory_null "t0" "snowball" "err" "" "NORMAL" (by decide) (by decide)).2.2.2.2.2.2.2.2.2⟩

/-!
Embedding of `calculateNextDueDate` (geminiService.ts lines 1042–1070).
A JavaScript `Date` is identified with its day number (days in the proleptic
Gregorian calendar, counted from year 0); `getISODateString` is injective and
monotone on day numbers, so "strictly later date" is "strictly greater day
number".  The input `currentDueDate` is a parsed valid ISO date `(y, m, d)`
with `1 ≤ m ≤ 12` and `1 ≤ d ≤ daysInMonth y m`; JavaScript's
`setDate`/`setMonth`/`setFullYear` overflow semantics are captured by
`toDayNumber` accepting out-of-range day components.
-/

/-- Gregorian leap-year rule, as implemented by JavaScript dates. -/
def isLeap (y : Nat) : Bool :=
  decide ((y % 4 = 0 ∧ ¬ y % 100 = 0) ∨ y % 400 = 0)

/-- Days in month `m` (1–12) of year `y`; `0` outside the valid range. -/
def daysInMonth (y : Nat) : Nat → Nat
  | 1 => 31
  | 2 => if isLeap y then 29 else 28
  | 3 => 31
  | 4 => 30
  | 5 => 31
  | 6 => 30
  | 7 => 31
  | 8 => 31
  | 9 => 30
  | 10 => 31
  | 11 => 30
  | 12 => 31
  | _ => 0

/-- Days of year `y` that precede the first day of month `m`. -/
def daysBeforeMonth (y : Nat) : Nat → Nat
  | 0 => 0
  | Nat.succ m => daysBeforeMonth y m + daysInMonth y m

/-- Number of leap years among `0, …, y - 1` (year 0 is a leap year). -/
def leapsBefore (y : Nat) : Nat :=
  (y + 3) / 4 - (y + 99) / 100 + (y + 399) / 400

/-- Days preceding the first day of year `y`, counted from year 0. -/
def daysBeforeYear (y : Nat) : Nat :=
  365 * y + leapsBefore y

/-- Day number of the date `(y, m, d)`; `d` beyond the month's length and
`m = 13` overflow into the following months exactly as JavaScript's
`Date.prototype.setDate` and `setMonth` do. -/
def toDayNumber (y m d : Nat) : Nat :=
  daysBeforeYear y + daysBeforeMonth y m + d

/-- The `RecurringTransactionFrequency` enumeration. -/
inductive RecurringTransactionFrequency where
  | daily
  | weekly
  | monthly
  | yearly
  | custom_days

/-- Translation of `calculateNextDueDate` (geminiService.ts lines
1042–1070), returning the day number of the resulting date.  `daily` adds one
day, `weekly` seven; `monthly` advances `getMonth() + 1` (December wraps to
January of the next year); `yearly` advances `getFullYear() + 1`; for
`custom_days` the interval is added only when present and strictly positive
(the JavaScript guard `customIntervalDays && customIntervalDays > 0`),
otherwise the date is returned unchanged. -/
def calculateNextDueDate (y m d : Nat)
    (frequency : RecurringTransactionFrequency)
    (customIntervalDays : Option Int) : Nat :=
  match frequency with
  | RecurringTransactionFrequency.daily => toDayNumber y m (d + 1)
  | RecurringTransactionFrequency.weekly => toDayNumber y m (d + 7)
  | RecurringTransactionFrequency.monthly =>
    if m = 12 then toDayNumber (y + 1) 1 d else toDayNumber y (m + 1) d
  | RecurringTransactionFrequency.yearly => toDayNumber (y + 1) m d
  | RecurringTransactionFrequency.custom_days =>
    match customIntervalDays with
    | some k => if 0 < k then toDayNumber y m (d + k.toNat) else toDayNumber y m d
    | none => toDayNumber y m d

theorem daysBeforeYear_succ (y : Nat) :
    daysBeforeYear (y + 1) =
      daysBeforeYear y + (if isLeap y then 366 else 365) := by
  by_cases h : (y % 4 = 0 ∧ ¬ y % 100 = 0) ∨ y % 400 = 0
  · rw [if_pos (by simp [isLeap, h])]
    unfold daysBeforeYear leapsBefore
    omega
  · rw [if_neg (by simp [isLeap]; omega)]
    unfold daysBeforeYear leapsBefore
    omega

/-- Claim C10: for every valid ISO input date, `calculateNextDueDate`
returns a strictly later date for the frequencies `daily`, `weekly`,
`monthly` and `yearly`; for `custom_days` with an absent or non-positive
interval it returns the input date unchanged. -/
theorem C10_next_due_date (y m d : Nat) (k : Option Int)
    (hm1 : 1 ≤ m) (hm2 : m ≤ 12) (hd1 : 1 ≤ d)
    (hd2 : d ≤ daysInMonth y m) :
    toDayNumber y m d <
      calculateNextDueDate y m d RecurringTransactionFrequency.daily k ∧
    toDayNumber y m d <
      calculateNextDueDate y m d RecurringTransactionFrequency.weekly k ∧
    toDayNumber y m d <
      calculateNextDueDate y m d RecurringTransactionFrequency.monthly k ∧
    toDayNumber y m d <
      calculateNextDueDate y m d RecurringTransactionFrequency.yearly k ∧
    calculateNextDueDate y m d RecurringTransactionFrequency.custom_days
      none = toDayNumber y m d ∧
    (∀ j : Int, j ≤ 0 →
      calculateNextDueDate y m d RecurringTransactionFrequency.custom_days
        (some j) = toDayNumber y m d) := by
  refine ⟨?_, ?_, ?_, ?_, rfl, ?_⟩
  · simp only [calculateNextDueDate, toDayNumber]
    omega
  · simp only [calculateNextDueDate, toDayNumber]
    omega
  · simp only [calculateNextDueDate]
    by_cases h12 : m = 12
    · subst h12
      rw [if_pos rfl]
      simp only [toDayNumber, daysBeforeYear_succ, daysBeforeMonth,
        daysInMonth]
      cases h : isLeap y <;> simp [h] <;> omega
    · rw [if_neg h12]
      interval_cases m <;>
        simp only [toDayNumber, daysBeforeMonth, daysInMonth] <;>
        cases h : isLeap y <;> simp [h] <;> omega
  · simp only [calculateNextDueDate]
    interval_cases m <;>
      simp only [toDayNumber, daysBeforeYear_succ, daysBeforeMonth,
        daysInMonth] <;>
      cases h1 : isLeap y <;> cases h2 : isLeap (y + 1) <;>
        simp [h1, h2] <;> omega
  · intro j hj
    simp only [calculateNextDueDate]
    rw [if_neg (not_lt.2 hj)]

/-- Witness for C10 at a concrete valid date (2024-01-31). -/
theorem C10_next_due_date_witness :
    toDayNumber 2024 1 31 <
      calculateNextDueDate 2024 1 31
        RecurringTransactionFrequency.monthly none ∧
    calculateNextDueDate 2024 1 31
      RecurringTransactionFrequency.custom_days none =
        toDayNumber 2024 1 31 :=
  ⟨(C10_next_due_date 2024 1 31 none (by decide) (by decide) (by decide)
      (by decide)).2.2.1,
    (C10_next_due_date 2024 1 31 none (by decide) (by decide) (by decide)
      (by decide)).2.2.2.2.1⟩

end ControleFinanceiro
